import Mathlib

/-!
Verification of the `generic_static` crate (`src/lib.rs`).

The crate provides `StaticTypeMap<T>`, a map from `TypeId` to leaked
`&'static T` slots guarded by an `RwLock`, with one operation

  `call_once<Type, Init>(&'static self, f: Init) -> &'static T`

whose body is (lib.rs, lines 134-155):

  1. take the read lock; if the key is present, return the stored
     reference (the guard drops at the `return`);
  2. otherwise drop the read lock, run `let value = f()` holding no lock
     (so `f` may re-entrantly call `call_once` on the same map);
  3. take the write lock and run
     `writer.entry(TypeId::of::<Type>()).or_insert_with(|| Box::leak(Box::new(value)))`:
     if the key appeared meanwhile the freshly computed `value` is dropped
     and the existing slot returned, otherwise `value` is leaked and
     inserted.

The embedding is sequential but models re-entrancy faithfully: an
initializer is a deep-embedded program (`Init`) that may itself perform
`call_once` operations on the shared store and may panic.  The
interpreter threads the store through and records an event trace: lock
acquisitions/releases, initializer invocations (tagged with the key they
were supplied for) and slot publications.  `TypeId` is modelled by `Nat`
(opaque, decidably equal, collision-free by assumption); a `&'static T`
slot is modelled by the value stored in the write-once map entry for its
key (write-once-ness, proved below, is what makes "the same reference"
meaningful).  A panicking initializer is modelled by a `none` result
propagating outward, leaving the store as the initializer's own
(re-entrant) effects left it — exactly what Rust unwinding does here,
since no lock is held while `f` runs (so no lock poisoning occurs).
-/

namespace GenericStatic

/-- Model of `std::any::TypeId`: an opaque decidably-equal key. -/
abbrev TypeId := Nat

/-- The `HashMap<TypeId, &'static T>` inside the store, as an association
list; keys are only ever inserted when absent, never removed or updated. -/
structure Store (V : Type) where
  map : List (TypeId × V)
  deriving DecidableEq

/-- Lookup in the underlying association list. -/
def lookupList {V : Type} : List (TypeId × V) → TypeId → Option V
  | [], _ => none
  | (k₀, v) :: rest, k => if k = k₀ then some v else lookupList rest k

/-- `HashMap::get`: look a key up in the store. -/
def Store.lookup {V : Type} (s : Store V) (k : TypeId) : Option V :=
  lookupList s.map k

/-- `HashMap::entry(..).or_insert_with(..)` in the vacant case: record a
new slot for an absent key. -/
def Store.insert {V : Type} (s : Store V) (k : TypeId) (v : V) : Store V :=
  ⟨(k, v) :: s.map⟩

/-- The empty store produced by `StaticTypeMap::new`. -/
def Store.new (V : Type) : Store V := ⟨[]⟩

/-- Events recorded while executing against the store.  `invoke k` marks
the start of a caller-supplied initializer that was supplied to
`call_once` for key `k`; `publish k` marks the insertion of a new slot
for `k`; the other four record the `RwLock` operations. -/
inductive Ev where
  | acquireRead : Ev
  | releaseRead : Ev
  | acquireWrite : Ev
  | releaseWrite : Ev
  | invoke : TypeId → Ev
  | publish : TypeId → Ev
  deriving DecidableEq

/-- Caller-supplied initializers, deep-embedded so that they can
re-entrantly call `call_once` on the same store (as the crate's
regression test `deadlock_issue4` does) and can panic.
`callThen k i cont` performs `call_once::<k>` with initializer `i` and
continues with the returned reference. -/
inductive Init (V : Type) where
  | ret : V → Init V
  | fail : Init V
  | callThen : TypeId → Init V → (V → Init V) → Init V

/-- Result of running a program against the store: the final store, the
event trace, and the produced value (`none` = the program panicked). -/
structure Outcome (V : Type) where
  store : Store V
  trace : List Ev
  result : Option V
  deriving DecidableEq

/-- The slow path of `call_once` (lib.rs lines 146-155), given the
outcome `o` of running the initializer with no lock held: on panic the
unwind propagates before the write lock is taken; otherwise the write
lock is taken and `entry(..).or_insert_with(..)` either finds the key
(inserted meanwhile by a re-entrant call: the fresh value is dropped and
the existing slot returned) or inserts and returns the fresh value. -/
def slowPath {V : Type} (k : TypeId) (o : Outcome V) : Outcome V :=
  match o.result with
  | none => ⟨o.store, [Ev.acquireRead, Ev.releaseRead, Ev.invoke k] ++ o.trace, none⟩
  | some v =>
    match o.store.lookup k with
    | some w =>
      ⟨o.store,
       [Ev.acquireRead, Ev.releaseRead, Ev.invoke k] ++ o.trace
         ++ [Ev.acquireWrite, Ev.releaseWrite],
       some w⟩
    | none =>
      ⟨o.store.insert k v,
       [Ev.acquireRead, Ev.releaseRead, Ev.invoke k] ++ o.trace
         ++ [Ev.acquireWrite, Ev.publish k, Ev.releaseWrite],
       some v⟩

/-- Sequencing of an outcome with the outcome of its continuation. -/
def seqCont {V : Type} (o o₂ : Outcome V) : Outcome V :=
  ⟨o₂.store, o.trace ++ o₂.trace, o₂.result⟩

/-- Interpreter for initializer programs.  The `callThen` case is
exactly `StaticTypeMap::call_once` (lib.rs lines 134-155): read-locked
lookup returning early when present, otherwise the initializer runs with
no lock held followed by the write-locked `entry(..).or_insert_with`. -/
def runInit {V : Type} : Init V → Store V → Outcome V
  | .ret v, s => ⟨s, [], some v⟩
  | .fail, s => ⟨s, [], none⟩
  | .callThen k i cont, s =>
    let o : Outcome V :=
      match s.lookup k with
      | some v => ⟨s, [Ev.acquireRead, Ev.releaseRead], some v⟩
      | none => slowPath k (runInit i s)
    match o.result with
    | none => ⟨o.store, o.trace, none⟩
    | some v => seqCont o (runInit (cont v) o.store)

/-- `StaticTypeMap::call_once` itself, as invoked from outside: the
read-locked fast path, else the initializer runs unlocked and the write-
locked insertion follows. -/
def callOnce {V : Type} (k : TypeId) (i : Init V) (s : Store V) : Outcome V :=
  match s.lookup k with
  | some v => ⟨s, [Ev.acquireRead, Ev.releaseRead], some v⟩
  | none => slowPath k (runInit i s)

/-- Number of occurrences of an event in a trace. -/
def countEv (e : Ev) : List Ev → Nat
  | [] => 0
  | e₀ :: tr => (if e₀ = e then 1 else 0) + countEv e tr

/-- Scan a trace tracking how many lock guards are held (`d`), checking
the `RwLock` discipline of `call_once`: a lock may only be acquired when
no guard is held (in a sequential execution, acquiring the non-re-entrant
`RwLock` while a guard is already held is a self-deadlock), a guard is
only released while held, an initializer only starts when no guard is
held, and a slot is only published while a guard (the write guard) is
held.  Returns the depth after the trace, or `none` on a violation. -/
def lockScan : Nat → List Ev → Option Nat
  | d, [] => some d
  | d, Ev.acquireRead :: tr => if d = 0 then lockScan 1 tr else none
  | d, Ev.releaseRead :: tr => if d = 1 then lockScan 0 tr else none
  | d, Ev.acquireWrite :: tr => if d = 0 then lockScan 1 tr else none
  | d, Ev.releaseWrite :: tr => if d = 1 then lockScan 0 tr else none
  | d, Ev.invoke _ :: tr => if d = 0 then lockScan d tr else none
  | d, Ev.publish _ :: tr => if d = 1 then lockScan d tr else none

@[simp]
theorem countEv_nil (e : Ev) : countEv e [] = 0 := rfl

@[simp]
theorem countEv_cons (e e₀ : Ev) (tr : List Ev) :
    countEv e (e₀ :: tr) = (if e₀ = e then 1 else 0) + countEv e tr := rfl

@[simp]
theorem countEv_append (e : Ev) (tr₁ tr₂ : List Ev) :
    countEv e (tr₁ ++ tr₂) = countEv e tr₁ + countEv e tr₂ := by
  induction tr₁ with
  | nil => simp
  | cons e₀ tr ih => simp [ih]; omega

@[simp]
theorem Store.lookup_insert_self {V : Type} (s : Store V) (k : TypeId) (v : V) :
    (s.insert k v).lookup k = some v := by
  simp [Store.insert, Store.lookup, lookupList]

theorem Store.lookup_insert_ne {V : Type} (s : Store V) (k k₀ : TypeId) (v : V)
    (h : k ≠ k₀) : (s.insert k₀ v).lookup k = s.lookup k := by
  simp [Store.insert, Store.lookup, lookupList, h]

/-- The `callThen` case of the interpreter is precisely a `callOnce`
followed by the continuation. -/
theorem runInit_callThen {V : Type} (k : TypeId) (i : Init V)
    (cont : V → Init V) (s : Store V) :
    runInit (Init.callThen k i cont) s =
      match (callOnce k i s).result with
      | none => ⟨(callOnce k i s).store, (callOnce k i s).trace, none⟩
      | some v => seqCont (callOnce k i s) (runInit (cont v) (callOnce k i s).store) := by
  simp only [runInit, callOnce]

/-- Preservation: a present key keeps its slot unchanged through any
program execution, and no `publish` event for it is ever emitted. -/
theorem runInit_preserves {V : Type} (k : TypeId) (v : V) (i : Init V) :
    ∀ s : Store V, s.lookup k = some v →
      (runInit i s).store.lookup k = some v ∧
        countEv (Ev.publish k) (runInit i s).trace = 0 := by
  induction i with
  | ret w => intro s h; simpa [runInit] using h
  | fail => intro s h; simpa [runInit] using h
  | callThen k₀ i₀ cont ih ihc =>
    intro s h
    rw [runInit_callThen]
    rcases h₀ : Store.lookup s k₀ with _ | w
    · have hc : callOnce k₀ i₀ s = slowPath k₀ (runInit i₀ s) := by
        rw [callOnce, h₀]
      obtain ⟨hpres, hcnt⟩ := ih s h
      rcases hri : runInit i₀ s with ⟨s₁, tr₁, r₁⟩
      rw [hri] at hc hpres hcnt
      simp only at hpres hcnt
      rcases r₁ with _ | v₀
      · rw [hc]
        simp [slowPath, hpres, hcnt]
      · rcases h₁ : Store.lookup s₁ k₀ with _ | w
        · have hne : k ≠ k₀ := by
            intro he
            rw [he, h₁] at hpres
            exact Option.noConfusion hpres
          have hne₀ : ¬ (k₀ = k) := fun he => hne he.symm
          rw [hc]
          simp only [slowPath, h₁]
          obtain ⟨hp₂, hc₂⟩ := ihc v₀ (s₁.insert k₀ v₀)
            (by rw [Store.lookup_insert_ne _ _ _ _ hne]; exact hpres)
          simp [seqCont, hp₂, hc₂, hcnt, hne₀]
        · rw [hc]
          simp only [slowPath, h₁]
          obtain ⟨hp₂, hc₂⟩ := ihc w s₁ hpres
          simp [seqCont, hp₂, hc₂, hcnt]
    · have hc : callOnce k₀ i₀ s = ⟨s, [Ev.acquireRead, Ev.releaseRead], some w⟩ := by
        rw [callOnce, h₀]
      rw [hc]
      obtain ⟨hp₂, hc₂⟩ := ihc w s h
      simp [seqCont, hp₂, hc₂]

/-- Unfolding of `callOnce` on the fast path (key present). -/
theorem callOnce_eq_fast {V : Type} {k : TypeId} {s : Store V} {v : V} (i : Init V)
    (h : s.lookup k = some v) :
    callOnce k i s = ⟨s, [Ev.acquireRead, Ev.releaseRead], some v⟩ := by
  rw [callOnce, h]

/-- Unfolding of `callOnce` on the slow path (key absent). -/
theorem callOnce_eq_slow {V : Type} {k : TypeId} {s : Store V} (i : Init V)
    (h : s.lookup k = none) :
    callOnce k i s = slowPath k (runInit i s) := by
  rw [callOnce, h]

/-- Publication happens at most once per key: starting from a store in
which the key is absent, any program execution emits at most one
`publish` event for it, and the key is present afterwards exactly when
one was emitted. -/
theorem runInit_publishOnce {V : Type} (k : TypeId) (i : Init V) :
    ∀ s : Store V, s.lookup k = none →
      countEv (Ev.publish k) (runInit i s).trace ≤ 1 ∧
        ((runInit i s).store.lookup k = none ↔
          countEv (Ev.publish k) (runInit i s).trace = 0) := by
  induction i with
  | ret w => intro s h; simp [runInit, h]
  | fail => intro s h; simp [runInit, h]
  | callThen k₀ i₀ cont ih ihc =>
    intro s h
    rw [runInit_callThen]
    rcases h₀ : Store.lookup s k₀ with _ | w
    · have hc : callOnce k₀ i₀ s = slowPath k₀ (runInit i₀ s) := by
        rw [callOnce, h₀]
      obtain ⟨hle, hiff⟩ := ih s h
      rcases hri : runInit i₀ s with ⟨s₁, tr₁, r₁⟩
      rw [hri] at hc hle hiff
      simp only at hle hiff
      rcases r₁ with _ | v₀
      · rw [hc]
        simp [slowPath, hle, hiff]
      · rcases h₁ : Store.lookup s₁ k₀ with _ | w
        · by_cases hk : k = k₀
          · subst hk
            have hz : countEv (Ev.publish k) tr₁ = 0 := hiff.mp h₁
            rw [hc]
            simp only [slowPath, h₁]
            obtain ⟨hp₂, hc₂⟩ := runInit_preserves k v₀ (cont v₀) (s₁.insert k v₀)
              (Store.lookup_insert_self s₁ k v₀)
            simp [seqCont, hp₂, hc₂, hz]
          · have hk₀ : ¬ (k₀ = k) := fun he => hk he.symm
            have hlk : (s₁.insert k₀ v₀).lookup k = Store.lookup s₁ k :=
              Store.lookup_insert_ne _ _ _ _ hk
            rw [hc]
            simp only [slowPath, h₁]
            rcases h₂ : Store.lookup s₁ k with _ | u
            · have hz : countEv (Ev.publish k) tr₁ = 0 := hiff.mp h₂
              obtain ⟨hle₂, hiff₂⟩ := ihc v₀ (s₁.insert k₀ v₀) (by rw [hlk]; exact h₂)
              simp [seqCont, hz, hk₀, hle₂, hiff₂]
            · have hone : countEv (Ev.publish k) tr₁ = 1 := by
                have hnz : countEv (Ev.publish k) tr₁ ≠ 0 := by
                  intro hz
                  rw [hiff.mpr hz] at h₂
                  exact Option.noConfusion h₂
                omega
              obtain ⟨hp₂, hc₂⟩ := runInit_preserves k u (cont v₀) (s₁.insert k₀ v₀)
                (by rw [hlk]; exact h₂)
              simp [seqCont, hone, hk₀, hp₂, hc₂]
        · rw [hc]
          simp only [slowPath, h₁]
          rcases h₂ : Store.lookup s₁ k with _ | u
          · have hz : countEv (Ev.publish k) tr₁ = 0 := hiff.mp h₂
            obtain ⟨hle₂, hiff₂⟩ := ihc w s₁ h₂
            simp [seqCont, hz, hle₂, hiff₂]
          · have hone : countEv (Ev.publish k) tr₁ = 1 := by
              have hnz : countEv (Ev.publish k) tr₁ ≠ 0 := by
                intro hz
                rw [hiff.mpr hz] at h₂
                exact Option.noConfusion h₂
              omega
            obtain ⟨hp₂, hc₂⟩ := runInit_preserves k u (cont w) s₁ h₂
            simp [seqCont, hone, hp₂, hc₂]
    · have hc : callOnce k₀ i₀ s = ⟨s, [Ev.acquireRead, Ev.releaseRead], some w⟩ := by
        rw [callOnce, h₀]
      rw [hc]
      obtain ⟨hle₂, hiff₂⟩ := ihc w s h
      simp [seqCont, hle₂, hiff₂]

/-- A slot for a key is only ever published by an execution that invoked
an initializer supplied to `call_once` for that very key: per key,
`publish` events never outnumber `invoke` events. -/
theorem runInit_publish_le_invoke {V : Type} (k : TypeId) (i : Init V) :
    ∀ s : Store V,
      countEv (Ev.publish k) (runInit i s).trace ≤
        countEv (Ev.invoke k) (runInit i s).trace := by
  induction i with
  | ret w => intro s; simp [runInit]
  | fail => intro s; simp [runInit]
  | callThen k₀ i₀ cont ih ihc =>
    intro s
    rw [runInit_callThen]
    rcases h₀ : Store.lookup s k₀ with _ | w
    · have hc : callOnce k₀ i₀ s = slowPath k₀ (runInit i₀ s) := by
        rw [callOnce, h₀]
      have ih₁ := ih s
      rcases hri : runInit i₀ s with ⟨s₁, tr₁, r₁⟩
      rw [hri] at hc ih₁
      simp only at ih₁
      rcases r₁ with _ | v₀
      · rw [hc]
        simp only [slowPath]
        simp
        omega
      · rcases h₁ : Store.lookup s₁ k₀ with _ | w
        · rw [hc]
          simp only [slowPath, h₁]
          have ih₂ := ihc v₀ (s₁.insert k₀ v₀)
          simp only [seqCont]
          simp
          split <;> omega
        · rw [hc]
          simp only [slowPath, h₁]
          have ih₂ := ihc w s₁
          simp only [seqCont]
          simp
          omega
    · have hc : callOnce k₀ i₀ s = ⟨s, [Ev.acquireRead, Ev.releaseRead], some w⟩ := by
        rw [callOnce, h₀]
      rw [hc]
      have ih₂ := ihc w s
      simp [seqCont]
      omega

/-- `lockScan` distributes over trace concatenation. -/
theorem lockScan_append (tr₁ : List Ev) :
    ∀ (d : Nat) (tr₂ : List Ev),
      lockScan d (tr₁ ++ tr₂) = (lockScan d tr₁).bind fun d₂ => lockScan d₂ tr₂ := by
  induction tr₁ with
  | nil => intro d tr₂; rfl
  | cons e tr ih =>
    intro d tr₂
    cases e <;> simp only [List.cons_append, lockScan] <;> split <;> simp [ih]

/-- Every program execution respects the lock discipline: starting with
no guard held, the scan succeeds and ends with no guard held. -/
theorem runInit_lockScan {V : Type} (i : Init V) :
    ∀ s : Store V, lockScan 0 (runInit i s).trace = some 0 := by
  induction i with
  | ret v => intro s; rfl
  | fail => intro s; rfl
  | callThen k₀ i₀ cont ih ihc =>
    intro s
    rw [runInit_callThen]
    rcases h₀ : Store.lookup s k₀ with _ | w
    · have hc : callOnce k₀ i₀ s = slowPath k₀ (runInit i₀ s) := by
        rw [callOnce, h₀]
      have ih₁ := ih s
      rcases hri : runInit i₀ s with ⟨s₁, tr₁, r₁⟩
      rw [hri] at hc ih₁
      simp only at ih₁
      rcases r₁ with _ | v₀
      · rw [hc]
        simp [slowPath, lockScan, lockScan_append, ih₁]
      · rcases h₁ : Store.lookup s₁ k₀ with _ | w
        · rw [hc]
          simp only [slowPath, h₁]
          simp [seqCont, lockScan, lockScan_append, ih₁, ihc v₀ (s₁.insert k₀ v₀)]
        · rw [hc]
          simp only [slowPath, h₁]
          simp [seqCont, lockScan, lockScan_append, ih₁, ihc w s₁]
    · have hc : callOnce k₀ i₀ s = ⟨s, [Ev.acquireRead, Ev.releaseRead], some w⟩ := by
        rw [callOnce, h₀]
      rw [hc]
      simp [seqCont, lockScan, lockScan_append, ihc w s]

/-- A single `call_once` preserves every present slot unchanged and
publishes nothing under an already-present key. -/
theorem callOnce_preserves {V : Type} (k₀ k : TypeId) (i : Init V) (s : Store V) (v : V)
    (h : s.lookup k = some v) :
    (callOnce k₀ i s).store.lookup k = some v ∧
      countEv (Ev.publish k) (callOnce k₀ i s).trace = 0 := by
  rcases h₀ : Store.lookup s k₀ with _ | w
  · rw [callOnce_eq_slow i h₀]
    obtain ⟨hp, hc⟩ := runInit_preserves k v i s h
    rcases hri : runInit i s with ⟨s₁, tr₁, r₁⟩
    rw [hri] at hp hc
    simp only at hp hc
    rcases r₁ with _ | v₀
    · simp [slowPath, hp, hc]
    · rcases h₁ : Store.lookup s₁ k₀ with _ | w
      · have hne : k ≠ k₀ := by
          intro he; rw [he, h₁] at hp; exact Option.noConfusion hp
        have hk₀ : ¬ (k₀ = k) := fun he => hne he.symm
        simp only [slowPath, h₁]
        simp [Store.lookup_insert_ne _ _ _ _ hne, hp, hc, hk₀]
      · simp [slowPath, h₁, hp, hc]
  · rw [callOnce_eq_fast i h₀]
    simp [h]

/-- In a single `call_once`, per key, `publish` events never outnumber
`invoke` events. -/
theorem callOnce_publish_le_invoke {V : Type} (k₂ k : TypeId) (i : Init V) (s : Store V) :
    countEv (Ev.publish k₂) (callOnce k i s).trace ≤
      countEv (Ev.invoke k₂) (callOnce k i s).trace := by
  rcases h₀ : Store.lookup s k with _ | w
  · rw [callOnce_eq_slow i h₀]
    have hle := runInit_publish_le_invoke k₂ i s
    rcases hri : runInit i s with ⟨s₁, tr₁, r₁⟩
    rw [hri] at hle
    simp only at hle
    rcases r₁ with _ | v₀
    · simp [slowPath]
      omega
    · rcases h₁ : Store.lookup s₁ k with _ | w
      · simp only [slowPath, h₁]
        simp
        split <;> omega
      · simp only [slowPath, h₁]
        simp
        omega
  · rw [callOnce_eq_fast i h₀]
    simp

/-- A single `call_once` for a key publishes at most one slot for it. -/
theorem callOnce_publish_le_one {V : Type} (k : TypeId) (i : Init V) (s : Store V) :
    countEv (Ev.publish k) (callOnce k i s).trace ≤ 1 := by
  rcases h₀ : Store.lookup s k with _ | w
  · rw [callOnce_eq_slow i h₀]
    obtain ⟨hle, hiff⟩ := runInit_publishOnce k i s h₀
    rcases hri : runInit i s with ⟨s₁, tr₁, r₁⟩
    rw [hri] at hle hiff
    simp only at hle hiff
    rcases r₁ with _ | v₀
    · simp [slowPath]
      omega
    · rcases h₁ : Store.lookup s₁ k with _ | w
      · have hz := hiff.mp h₁
        simp [slowPath, h₁, hz]
      · simp [slowPath, h₁]
        omega
  · rw [callOnce_eq_fast i h₀]
    simp

/-- Any execution (any sequence or nest of `call_once` operations)
publishes at most one slot per key. -/
theorem runInit_publish_le_one {V : Type} (k : TypeId) (i : Init V) (s : Store V) :
    countEv (Ev.publish k) (runInit i s).trace ≤ 1 := by
  rcases h₀ : Store.lookup s k with _ | w
  · exact (runInit_publishOnce k i s h₀).1
  · have hz := (runInit_preserves k w i s h₀).2
    omega

/-- Claim C1 (counterexample): the claim that the initializer supplied
to `call_once` runs at most once per key over the life of the store —
including invocations made re-entrantly from inside another initializer
— is false on the code.  On a fresh store, `call_once` for key `0` with
an initializer that itself calls `call_once` for key `0` performs two
initializer invocations for key `0`: the code releases all locks while
the initializer runs (Strategy B), so the re-entrant inner call finds
the key still absent and runs its own initializer too. -/
theorem claim_C1_counterexample :
    countEv (Ev.invoke 0)
        (callOnce 0 (Init.callThen 0 (Init.ret 1) (fun _ => Init.ret 2))
          (Store.new Nat)).trace = 2 ∧
      ¬ countEv (Ev.invoke 0)
          (callOnce 0 (Init.callThen 0 (Init.ret 1) (fun _ => Init.ret 2))
            (Store.new Nat)).trace ≤ 1 := by
  decide

/-- Claim C1 (amended): for every store instance and every type key, at
most one initializer result is ever published as the key's slot: over
any execution — any sequence of `call_once` invocations for that key,
including invocations made re-entrantly from inside another initializer
— the total number of slot publications for that key is at most one.
The initializer itself may run more than once, but every surplus result
is discarded rather than stored. -/
theorem claim_C1_publish_at_most_once {V : Type} (k : TypeId) (i : Init V) (s : Store V) :
    countEv (Ev.publish k) (runInit i s).trace ≤ 1 ∧
      countEv (Ev.publish k) (callOnce k i s).trace ≤ 1 :=
  ⟨runInit_publish_le_one k i s, callOnce_publish_le_one k i s⟩

/-- Claim C2: once a slot exists for a key, every `call_once` for that
key takes the read-locked fast path — it returns the stored slot,
leaves the store unchanged and invokes no initializer (the trace is
exactly the read-lock pair) — and iterating the call any number of
times keeps returning the identical slot. -/
theorem claim_C2_idempotent_reread {V : Type} (k : TypeId) (i : Init V) (s : Store V)
    (v : V) (n : Nat) (h : s.lookup k = some v) :
    callOnce k i s = ⟨s, [Ev.acquireRead, Ev.releaseRead], some v⟩ ∧
      (fun t : Store V => (callOnce k i t).store)^[n] s = s ∧
      (callOnce k i ((fun t : Store V => (callOnce k i t).store)^[n] s)).result
        = some v := by
  have hfast := callOnce_eq_fast i h
  have hfix : (fun t : Store V => (callOnce k i t).store) s = s := by
    show (callOnce k i s).store = s
    rw [hfast]
  have hiter : (fun t : Store V => (callOnce k i t).store)^[n] s = s :=
    Function.iterate_fixed hfix n
  refine ⟨hfast, hiter, ?_⟩
  rw [hiter, hfast]

/-- Witness for claim C2 at a concrete store, key and iteration count. -/
theorem claim_C2_witness :
    Store.lookup (⟨[(0, 5)]⟩ : Store Nat) 0 = some 5 ∧
      (callOnce 0 (Init.ret 9) (⟨[(0, 5)]⟩ : Store Nat)
          = ⟨⟨[(0, 5)]⟩, [Ev.acquireRead, Ev.releaseRead], some 5⟩ ∧
        (fun t : Store Nat => (callOnce 0 (Init.ret 9) t).store)^[3] ⟨[(0, 5)]⟩
          = (⟨[(0, 5)]⟩ : Store Nat) ∧
        (callOnce 0 (Init.ret 9)
            ((fun t : Store Nat => (callOnce 0 (Init.ret 9) t).store)^[3]
              ⟨[(0, 5)]⟩)).result = some 5) :=
  ⟨by decide, claim_C2_idempotent_reread 0 (Init.ret 9) ⟨[(0, 5)]⟩ 5 3 (by decide)⟩

/-- Claim C3: for a key absent from the store, and an initializer whose
execution completes with value `v` without itself having published that
key, `call_once` invokes the initializer (the `invoke` event for the
key is in the trace), records `v` in the mapping under the key and
returns exactly `v`.  In particular the first `call_once` on a freshly
constructed store returns its initializer's result. -/
theorem claim_C3_absent_key_initializes {V : Type} (k : TypeId) (i : Init V)
    (s s₁ : Store V) (tr : List Ev) (v : V)
    (habs : s.lookup k = none)
    (hrun : runInit i s = ⟨s₁, tr, some v⟩)
    (hother : s₁.lookup k = none) :
    callOnce k i s =
      ⟨s₁.insert k v,
       [Ev.acquireRead, Ev.releaseRead, Ev.invoke k] ++ tr
         ++ [Ev.acquireWrite, Ev.publish k, Ev.releaseWrite],
       some v⟩ ∧
      (callOnce k i s).store.lookup k = some v := by
  have hc := callOnce_eq_slow i habs
  rw [hc, hrun]
  simp only [slowPath, hother]
  exact ⟨trivial, by simp⟩

/-- Witness for claim C3 on a fresh store with a plain initializer. -/
theorem claim_C3_witness :
    Store.lookup (Store.new Nat) 0 = none ∧
      runInit (Init.ret 7) (Store.new Nat) = ⟨Store.new Nat, [], some 7⟩ ∧
      (callOnce 0 (Init.ret 7) (Store.new Nat) =
          ⟨(Store.new Nat).insert 0 7,
           [Ev.acquireRead, Ev.releaseRead, Ev.invoke 0] ++ []
             ++ [Ev.acquireWrite, Ev.publish 0, Ev.releaseWrite],
           some 7⟩ ∧
        (callOnce 0 (Init.ret 7) (Store.new Nat)).store.lookup 0 = some 7) :=
  ⟨by decide, by decide,
    claim_C3_absent_key_initializes 0 (Init.ret 7) (Store.new Nat) (Store.new Nat) [] 7
      (by decide) (by decide) (by decide)⟩

/-- Claim C4: the `deadlock_issue4` regression scenario — on a fresh
store, `call_once` for key 64 (standing for `u64`) with an initializer
that re-entrantly performs `call_once` for key 32 (standing for `u32`)
returning `"u32"` and then appends `" and"` — completes and returns
exactly `"u32 and"`; the inner call's result `"u32"` is the slot of key
32 and the outer result the slot of key 64. -/
theorem claim_C4_reentrant_other_key :
    (callOnce 64
        (Init.callThen 32 (Init.ret "u32") (fun x => Init.ret (x ++ " and")))
        (Store.new String)).result = some "u32 and" ∧
      (callOnce 64
          (Init.callThen 32 (Init.ret "u32") (fun x => Init.ret (x ++ " and")))
          (Store.new String)).store.lookup 32 = some "u32" ∧
      (callOnce 64
          (Init.callThen 32 (Init.ret "u32") (fun x => Init.ret (x ++ " and")))
          (Store.new String)).store.lookup 64 = some "u32 and" := by
  decide

/-- Claim C5: key isolation — for distinct keys `k₁ ≠ k₂`, a
`call_once` for `k₁` with any initializer leaves the slot of `k₂`
exactly as it was (so a later `call_once` for `k₂` observes the same
value), and a slot can only ever be published under `k₂` by an
initializer that was supplied to a `call_once` for `k₂` itself:
`publish` events for `k₂` never outnumber `invoke` events for `k₂`. -/
theorem claim_C5_key_isolation {V : Type} (k₁ k₂ : TypeId) (i : Init V) (s : Store V)
    (v : V) (_hne : k₁ ≠ k₂) (h : s.lookup k₂ = some v) :
    (callOnce k₁ i s).store.lookup k₂ = some v ∧
      countEv (Ev.publish k₂) (callOnce k₁ i s).trace ≤
        countEv (Ev.invoke k₂) (callOnce k₁ i s).trace :=
  ⟨(callOnce_preserves k₁ k₂ i s v h).1, callOnce_publish_le_invoke k₂ k₁ i s⟩

/-- Witness for claim C5 with distinct concrete keys. -/
theorem claim_C5_witness :
    (1 : TypeId) ≠ 2 ∧ Store.lookup (⟨[(2, 9)]⟩ : Store Nat) 2 = some 9 ∧
      ((callOnce 1 (Init.ret 0) (⟨[(2, 9)]⟩ : Store Nat)).store.lookup 2 = some 9 ∧
        countEv (Ev.publish 2) (callOnce 1 (Init.ret 0) (⟨[(2, 9)]⟩ : Store Nat)).trace ≤
          countEv (Ev.invoke 2)
            (callOnce 1 (Init.ret 0) (⟨[(2, 9)]⟩ : Store Nat)).trace) :=
  ⟨by decide, by decide,
    claim_C5_key_isolation 1 2 (Init.ret 0) ⟨[(2, 9)]⟩ 9 (by decide) (by decide)⟩

/-- Claim C6: if the caller-supplied initializer panics during
`call_once` (its execution fails, leaving the store as it found it, as
any plainly panicking initializer does), then no slot is published for
the key (no `publish` event for it occurs), the store's mapping is
exactly as it was before the call, and the failure propagates
synchronously to the caller (`none` result, emitted after the read-lock
pair and the invocation, before any write lock). -/
theorem claim_C6_panic_publishes_nothing {V : Type} (k : TypeId) (i : Init V)
    (s : Store V) (tr : List Ev)
    (habs : s.lookup k = none)
    (hfail : runInit i s = ⟨s, tr, none⟩) :
    callOnce k i s
        = ⟨s, [Ev.acquireRead, Ev.releaseRead, Ev.invoke k] ++ tr, none⟩ ∧
      countEv (Ev.publish k) (callOnce k i s).trace = 0 := by
  have hc := callOnce_eq_slow i habs
  rw [hc, hfail]
  have hiff := (runInit_publishOnce k i s habs).2
  rw [hfail] at hiff
  simp only at hiff
  have hz : countEv (Ev.publish k) tr = 0 := hiff.mp habs
  constructor
  · simp [slowPath]
  · simp [slowPath, hz]

/-- Witness for claim C6: a plainly panicking initializer on a fresh
store. -/
theorem claim_C6_witness :
    Store.lookup (Store.new Nat) 0 = none ∧
      runInit (Init.fail : Init Nat) (Store.new Nat) = ⟨Store.new Nat, [], none⟩ ∧
      (callOnce 0 (Init.fail : Init Nat) (Store.new Nat)
          = ⟨Store.new Nat,
             [Ev.acquireRead, Ev.releaseRead, Ev.invoke 0] ++ [], none⟩ ∧
        countEv (Ev.publish 0)
          (callOnce 0 (Init.fail : Init Nat) (Store.new Nat)).trace = 0) :=
  ⟨by decide, by decide,
    claim_C6_panic_publishes_nothing 0 Init.fail (Store.new Nat) []
      (by decide) (by decide)⟩

/-- Claim C7: the mapping grows monotonically and is write-once per key
— a `call_once` for any key with any initializer never removes a
present key and never changes the slot already bound to it, so the set
of present keys afterwards is a superset of the set before. -/
theorem claim_C7_write_once {V : Type} (k₀ k : TypeId) (i : Init V) (s : Store V)
    (v : V) (h : s.lookup k = some v) :
    (callOnce k₀ i s).store.lookup k = some v :=
  (callOnce_preserves k₀ k i s v h).1

/-- Witness for claim C7: a call that inserts key 1 leaves key 0's slot
untouched. -/
theorem claim_C7_witness :
    Store.lookup (⟨[(0, 4)]⟩ : Store Nat) 0 = some 4 ∧
      (callOnce 1 (Init.ret 8) (⟨[(0, 4)]⟩ : Store Nat)).store.lookup 0 = some 4 :=
  ⟨by decide, claim_C7_write_once 1 0 (Init.ret 8) ⟨[(0, 4)]⟩ 4 (by decide)⟩

/-- Claim C8: Strategy B lock discipline — in every execution of
`call_once`, including all re-entrant inner calls, the `lockScan` check
succeeds: every lock acquisition happens while no guard is held (so a
re-entrant call from inside an initializer never attempts to take the
lock while it is already held — the self-deadlock of Strategy A cannot
occur), every initializer invocation starts while no guard is held (the
read lock is released before the initializer runs and the write lock is
only taken afterwards, to insert), and every map mutation (`publish`)
happens while the write guard is held, so the lock is held only for the
duration of map reads and mutations, never for the initializer's. -/
theorem claim_C8_lock_discipline {V : Type} (k : TypeId) (i : Init V) (s : Store V) :
    lockScan 0 (callOnce k i s).trace = some 0 := by
  rcases h₀ : Store.lookup s k with _ | w
  · rw [callOnce_eq_slow i h₀]
    have ih₁ := runInit_lockScan i s
    rcases hri : runInit i s with ⟨s₁, tr₁, r₁⟩
    rw [hri] at ih₁
    simp only at ih₁
    rcases r₁ with _ | v₀
    · simp [slowPath, lockScan, lockScan_append, ih₁]
    · rcases h₁ : Store.lookup s₁ k with _ | w
      · simp [slowPath, h₁, lockScan, lockScan_append, ih₁]
      · simp [slowPath, h₁, lockScan, lockScan_append, ih₁]
  · rw [callOnce_eq_fast i h₀]
    simp [lockScan]

/-- Claim C9: same-key re-entrancy resolves in favor of the inner call
— if the initializer supplied to `call_once` for a key completes with
value `v` but its own execution already published a slot `w` for that
key (through a re-entrant inner `call_once` for the same key), then the
outer call finds the key present at insert time, discards its own value
`v` (the store stays exactly the initializer's final store and no
further `publish` event occurs), and returns the inner-published slot
`w`. -/
theorem claim_C9_same_key_reentrant {V : Type} (k : TypeId) (i : Init V)
    (s s₁ : Store V) (tr : List Ev) (v w : V)
    (habs : s.lookup k = none)
    (hrun : runInit i s = ⟨s₁, tr, some v⟩)
    (hinner : s₁.lookup k = some w) :
    callOnce k i s =
      ⟨s₁, [Ev.acquireRead, Ev.releaseRead, Ev.invoke k] ++ tr
        ++ [Ev.acquireWrite, Ev.releaseWrite], some w⟩ := by
  have hc := callOnce_eq_slow i habs
  rw [hc, hrun]
  simp [slowPath, hinner]

/-- Witness for claim C9: an initializer for key 0 that re-entrantly
initializes key 0 to 1 and then itself produces 2; the outer call
returns the inner slot 1 and discards 2. -/
theorem claim_C9_witness :
    Store.lookup (Store.new Nat) 0 = none ∧
      runInit (Init.callThen 0 (Init.ret 1) (fun _ => Init.ret 2)) (Store.new Nat)
        = ⟨⟨[(0, 1)]⟩,
           [Ev.acquireRead, Ev.releaseRead, Ev.invoke 0,
            Ev.acquireWrite, Ev.publish 0, Ev.releaseWrite],
           some 2⟩ ∧
      Store.lookup (⟨[(0, 1)]⟩ : Store Nat) 0 = some 1 ∧
      callOnce 0 (Init.callThen 0 (Init.ret 1) (fun _ => Init.ret 2)) (Store.new Nat)
        = ⟨⟨[(0, 1)]⟩,
           [Ev.acquireRead, Ev.releaseRead, Ev.invoke 0]
             ++ [Ev.acquireRead, Ev.releaseRead, Ev.invoke 0,
                 Ev.acquireWrite, Ev.publish 0, Ev.releaseWrite]
             ++ [Ev.acquireWrite, Ev.releaseWrite],
           some 1⟩ :=
  ⟨by decide, by decide, by decide,
    claim_C9_same_key_reentrant 0 (Init.callThen 0 (Init.ret 1) (fun _ => Init.ret 2))
      (Store.new Nat) ⟨[(0, 1)]⟩
      [Ev.acquireRead, Ev.releaseRead, Ev.invoke 0,
       Ev.acquireWrite, Ev.publish 0, Ev.releaseWrite] 2 1
      (by decide) (by decide) (by decide)⟩

/-- Claim C10: a failed initializer does not poison the key or the
store — after a `call_once` for a key whose initializer panicked
(leaving the store as it found it), the failure was reported and the
store is unchanged, and a subsequent `call_once` for the same key
invokes its own initializer normally and, when that initializer
succeeds without itself publishing the key, publishes its value and
returns it: retry is permitted. -/
theorem claim_C10_retry_after_panic {V : Type} (k : TypeId) (i₁ i₂ : Init V)
    (s s₂ : Store V) (tr₁ tr₂ : List Ev) (v : V)
    (habs : s.lookup k = none)
    (hfail : runInit i₁ s = ⟨s, tr₁, none⟩)
    (hrun : runInit i₂ s = ⟨s₂, tr₂, some v⟩)
    (hother : s₂.lookup k = none) :
    (callOnce k i₁ s).result = none ∧
      (callOnce k i₁ s).store = s ∧
      callOnce k i₂ (callOnce k i₁ s).store =
        ⟨s₂.insert k v,
         [Ev.acquireRead, Ev.releaseRead, Ev.invoke k] ++ tr₂
           ++ [Ev.acquireWrite, Ev.publish k, Ev.releaseWrite],
         some v⟩ := by
  have hc₁ := callOnce_eq_slow i₁ habs
  rw [hc₁, hfail]
  simp only [slowPath]
  refine ⟨trivial, trivial, ?_⟩
  rw [callOnce_eq_slow i₂ habs, hrun]
  simp only [slowPath, hother]

/-- Witness for claim C10: key 0's initializer panics, the retry with a
plain initializer publishes 5. -/
theorem claim_C10_witness :
    Store.lookup (Store.new Nat) 0 = none ∧
      runInit (Init.fail : Init Nat) (Store.new Nat) = ⟨Store.new Nat, [], none⟩ ∧
      runInit (Init.ret 5) (Store.new Nat) = ⟨Store.new Nat, [], some 5⟩ ∧
      ((callOnce 0 (Init.fail : Init Nat) (Store.new Nat)).result = none ∧
        (callOnce 0 (Init.fail : Init Nat) (Store.new Nat)).store = Store.new Nat ∧
        callOnce 0 (Init.ret 5)
            (callOnce 0 (Init.fail : Init Nat) (Store.new Nat)).store =
          ⟨(Store.new Nat).insert 0 5,
           [Ev.acquireRead, Ev.releaseRead, Ev.invoke 0] ++ []
             ++ [Ev.acquireWrite, Ev.publish 0, Ev.releaseWrite],
           some 5⟩) :=
  ⟨by decide, by decide, by decide,
    claim_C10_retry_after_panic 0 Init.fail (Init.ret 5) (Store.new Nat) (Store.new Nat)
      [] [] 5 (by decide) (by decide) (by decide) (by decide)⟩

end GenericStatic
